import Mathlib

/-!
Verification of the GTA policy-binding manager (GCP provider).

The Go provider is embedded as pure state-passing functions over a
`PState` (remote policy document, session bookkeeping, call counters and
observation histories) together with an oracle `Env` fixing the outcome
of each remote call and the value of each clock read.
-/

namespace GTA

/-- Marker used to identify bindings created by this tool
(`gcpBindingTitlePrefix` in the source). -/
def gcpBindingTitlePrefix : String := "gta_temporary_access"

/-- Policy version required for using conditions in IAM policies. -/
def policyVersion : Int := 3

/-- Standard prefix for GCP IAM roles (`rolePrefix` in the source). -/
def rolePrefix : String := "roles/"

/-- IAM condition expression (`resourcemanager.Expr`): title, description
and CEL expression. -/
structure Expr where
  title : String
  description : String
  expression : String
deriving DecidableEq

/-- An IAM binding (`resourcemanager.Binding`): a role, its member list and
an optional condition. -/
structure Binding where
  role : String
  members : List String
  condition : Option Expr
deriving DecidableEq

/-- An IAM policy (`resourcemanager.Policy`): schema version plus the
ordered binding list. -/
structure Policy where
  version : Int
  bindings : List Binding
deriving DecidableEq

/-- A successfully granted role and its binding ID (`GrantedRole`). -/
structure GrantedRole where
  role : String
  bindingID : String
deriving DecidableEq

/-- A matched temporary binding recorded by `CleanTemporaryBindings`
(`temporaryBinding` in the source). -/
structure temporaryBinding where
  role : String
  member : String
  bindingID : String
  index : Nat
deriving DecidableEq

/-- GCP-specific options (`GCPOptions`); the TTL is in nanoseconds. -/
structure GCPOptions where
  project : String
  roles : List String
  user : String
  ttl : Nat
deriving DecidableEq

/-- Model of `strings.HasPrefix`, on the underlying character lists. -/
def hasPrefixStr (s p : String) : Bool := p.data.isPrefixOf s.data

/-- Model of `strings.TrimPrefix`. -/
def trimPrefixStr (s p : String) : String :=
  if hasPrefixStr s p then String.mk (s.data.drop p.data.length) else s

/-- `formatRole` ensures the role has the proper prefix. -/
def formatRole (role : String) : String :=
  if hasPrefixStr role rolePrefix then role else rolePrefix ++ role

/-- `formatMember` formats a user email into a GCP member string. -/
def formatMember (email : String) : String := "user:" ++ email

/-- Decimal digit characters of `n`, most significant first, by a
fuel-bounded division loop (any fuel at least `n` gives all digits).
This is the model of C-style integer formatting (`%d`). -/
def toDecChars : Nat → Nat → List Char
  | 0, _ => []
  | fuel + 1, n =>
    if n < 10 then [Nat.digitChar n]
    else toDecChars fuel (n / 10) ++ [Nat.digitChar (n % 10)]

/-- Decimal rendering of a natural number (model of `Sprintf` with `%d`). -/
def natToDecimal (n : Nat) : String := String.mk (toDecChars (n + 1) n)

/-- Numeric value of a decimal digit character. -/
def charVal (c : Char) : Nat := c.toNat - 48

/-- Value of a most-significant-first digit character list. -/
def decValue (cs : List Char) : Nat :=
  cs.foldl (fun acc c => acc * 10 + charVal c) 0

theorem charVal_digitChar : ∀ d : Nat, d < 10 → charVal (Nat.digitChar d) = d := by
  decide

theorem decValue_append_singleton (A : List Char) (c : Char) :
    decValue (A ++ [c]) = decValue A * 10 + charVal c := by
  simp [decValue, List.foldl_append]

theorem decValue_toDecChars : ∀ fuel n : Nat, n ≤ fuel →
    decValue (toDecChars fuel n) = n := by
  intro fuel
  induction fuel with
  | zero =>
    intro n hn
    interval_cases n
    simp [toDecChars, decValue]
  | succ f ih =>
    intro n hn
    by_cases h10 : n < 10
    · simp [toDecChars, h10, decValue, charVal_digitChar n h10]
    · have hdiv : n / 10 ≤ f := by omega
      simp only [toDecChars, h10, if_false]
      rw [decValue_append_singleton, ih _ hdiv,
        charVal_digitChar _ (Nat.mod_lt _ (by omega))]
      omega

theorem string_data_append (s t : String) : (s ++ t).data = s.data ++ t.data := by
  cases s
  cases t
  rfl

theorem string_eq_of_data {s t : String} (h : s.data = t.data) : s = t := by
  cases s
  cases t
  exact congrArg String.mk h

theorem natToDecimal_inj {m n : Nat} (h : natToDecimal m = natToDecimal n) :
    m = n := by
  have hd : toDecChars (m + 1) m = toDecChars (n + 1) n := by
    have := congrArg String.data h
    simpa [natToDecimal] using this
  have hm := decValue_toDecChars (m + 1) m (by omega)
  have hn := decValue_toDecChars (n + 1) n (by omega)
  rw [hd] at hm
  omega

/-- Condition title of a binding created by the tool: the marker, an
underscore and the decimal nanosecond timestamp (`Sprintf` of
`%s_%d` in `createBinding`). -/
def mkBindingID (nano : Nat) : String :=
  gcpBindingTitlePrefix ++ "_" ++ natToDecimal nano

theorem mkBindingID_inj {a b : Nat} (h : mkBindingID a = mkBindingID b) :
    a = b := by
  have hd := congrArg String.data h
  simp only [mkBindingID, string_data_append, List.append_assoc] at hd
  have h2 : (natToDecimal a).data = (natToDecimal b).data :=
    List.append_cancel_left (List.append_cancel_left hd)
  exact natToDecimal_inj (string_eq_of_data h2)

/-- Oracle for the environment: whether the n-th get-policy / set-policy
call succeeds, the nanosecond wall-clock value returned by the n-th
`time.Now()` read, and the result of the OAuth current-user lookup
(`none` models a lookup failure or an empty email). -/
structure Env where
  getOk : Nat → Bool
  setOk : Nat → Bool
  nowAt : Nat → Nat
  currentUser : Option String

/-- Provider and remote-world state threaded through the operations.
`remote` is the policy stored by the resource-manager API;
`grantedRoles` is the session list tracked by `GCPProvider`;
`setLog` records every policy passed to a set-policy call and
`created` every binding constructed by `createBinding` (observation
histories); `reported` records the matches printed by the listing loop
of `CleanTemporaryBindings`. -/
structure PState where
  remote : Policy
  grantedRoles : List GrantedRole
  getCalls : Nat
  setCalls : Nat
  clockReads : Nat
  setLog : List Policy
  created : List Binding
  reported : List temporaryBinding
deriving DecidableEq

/-- `NewGCPProvider`: a fresh provider over a given remote policy, with an
empty session list. -/
def newGCPProvider (remote : Policy) : PState :=
  { remote := remote, grantedRoles := [], getCalls := 0, setCalls := 0,
    clockReads := 0, setLog := [], created := [], reported := [] }

/-- `getIAMPolicy`: fetch the policy (the n-th get call succeeds iff the
oracle says so) and set its version field to `policyVersion`. -/
def getIAMPolicy (env : Env) (s : PState) : Option Policy × PState :=
  let s1 := { s with getCalls := s.getCalls + 1 }
  if env.getOk s.getCalls then
    (some { s.remote with version := policyVersion }, s1)
  else (none, s1)

/-- `setIAMPolicy`: write the policy back wholesale; on success the remote
document is replaced. Every attempted write is recorded in `setLog`. -/
def setIAMPolicy (env : Env) (s : PState) (policy : Policy) : Bool × PState :=
  let s1 := { s with setCalls := s.setCalls + 1, setLog := s.setLog ++ [policy] }
  if env.setOk s.setCalls then (true, { s1 with remote := policy })
  else (false, s1)

/-- One `time.Now()` read. -/
def readClock (env : Env) (s : PState) : Nat × PState :=
  (env.nowAt s.clockReads, { s with clockReads := s.clockReads + 1 })

/-- `createBinding`: build a binding with a single member and an
expiration condition. The source reads the clock three times (expiry,
binding ID, description); RFC3339 rendering is modelled as decimal
nanoseconds, which no claim depends on. -/
def createBinding (env : Env) (s : PState) (role member : String) (ttl : Nat) :
    Binding × PState :=
  let (t1, s1) := readClock env s
  let expireTime := t1 + ttl
  let (t2, s2) := readClock env s1
  let bindingID := mkBindingID t2
  let (t3, s3) := readClock env s2
  let b : Binding :=
    { role := role, members := [member],
      condition := some
        { title := bindingID,
          description := "Temporary access granted by GTA tool at " ++ natToDecimal t3,
          expression := "request.time < timestamp(\x27" ++ natToDecimal expireTime ++ "\x27)" } }
  (b, { s3 with created := s3.created ++ [b] })

/-- The condition title of a binding (`binding.Condition.Title`). -/
def condTitle (b : Binding) : String :=
  match b.condition with
  | some c => c.title
  | none => ""

/-- `binding.Condition != nil && binding.Condition.Title == id`. -/
def hasCondTitle (b : Binding) (id : String) : Bool :=
  match b.condition with
  | some c => c.title == id
  | none => false

/-- The match test of the `Revoke` loop: role and recorded binding ID both
agree. -/
def bindingMatches (b : Binding) (g : GrantedRole) : Bool :=
  b.role == g.role && hasCondTitle b g.bindingID

/-- The per-role loop of `Grant`: fetch, append the new binding, write
back; a per-role failure is appended to the error list and processing
continues with the remaining roles; a success is recorded in
`grantedRoles`. -/
def grantLoop (env : Env) (dryRun : Bool) (member : String) (ttl : Nat) :
    List String → List String → PState → List String × PState
  | [], errs, s => (errs, s)
  | role :: rest, errs, s =>
    let formattedRole := formatRole role
    if dryRun then
      grantLoop env dryRun member ttl rest errs s
    else
      match getIAMPolicy env s with
      | (none, s1) =>
        grantLoop env dryRun member ttl rest (errs ++ ["role " ++ formattedRole]) s1
      | (some policy, s1) =>
        let bs2 := createBinding env s1 formattedRole member ttl
        let policy2 : Policy := { policy with bindings := policy.bindings ++ [bs2.1] }
        match setIAMPolicy env bs2.2 policy2 with
        | (false, s3) =>
          grantLoop env dryRun member ttl rest (errs ++ ["role " ++ formattedRole]) s3
        | (true, s3) =>
          grantLoop env dryRun member ttl rest errs
            { s3 with grantedRoles :=
                s3.grantedRoles ++ [{ role := formattedRole, bindingID := condTitle bs2.1 }] }

/-- The user actually granted to: the explicit option, or the OAuth
current-user lookup when the option is empty. -/
def resolvedUser (env : Env) (opts : GCPOptions) : Option String :=
  if opts.user = "" then env.currentUser else some opts.user

/-- `Grant`: resolve the user, process every role, and return an error
only when there were failures and the session granted-role list is
empty. -/
def grant (env : Env) (dryRun : Bool) (opts : GCPOptions) (s : PState) :
    Except String Unit × PState :=
  match resolvedUser env opts with
  | none => (Except.error "failed to get current user", s)
  | some user =>
    let member := formatMember user
    let r := grantLoop env dryRun member opts.ttl opts.roles [] s
    if r.1 ≠ [] then
      if r.2.grantedRoles = [] then
        (Except.error "failed to grant any roles", r.2)
      else (Except.ok (), r.2)
    else (Except.ok (), r.2)

/-- The binding scan of one `Revoke` iteration: remove `member` from the
first binding matching the recorded role and binding ID, deleting the
binding when no members remain, then stop (`break`). -/
def revokeOne : List Binding → GrantedRole → String → List Binding
  | [], _, _ => []
  | b :: rest, g, member =>
    if bindingMatches b g then
      let newMembers := b.members.filter (fun m => m != member)
      if newMembers.isEmpty then rest
      else { b with members := newMembers } :: rest
    else b :: revokeOne rest g member

/-- The per-granted-role loop of `Revoke`: fetch, remove, write back;
failures are logged and processing continues. -/
def revokeLoop (env : Env) (dryRun : Bool) (member : String) :
    List GrantedRole → List String → PState → List String × PState
  | [], errs, s => (errs, s)
  | g :: rest, errs, s =>
    if dryRun then revokeLoop env dryRun member rest errs s
    else
      match getIAMPolicy env s with
      | (none, s1) => revokeLoop env dryRun member rest (errs ++ ["role " ++ g.role]) s1
      | (some policy, s1) =>
        let policy2 : Policy := { policy with bindings := revokeOne policy.bindings g member }
        match setIAMPolicy env s1 policy2 with
        | (false, s2) => revokeLoop env dryRun member rest (errs ++ ["role " ++ g.role]) s2
        | (true, s2) => revokeLoop env dryRun member rest errs s2

/-- `Revoke`: revoke only the session's recorded grants; always returns
success after the loop. -/
def revoke (env : Env) (dryRun : Bool) (opts : GCPOptions) (s : PState) :
    Except String Unit × PState :=
  if s.grantedRoles.isEmpty then (Except.ok (), s)
  else
    let member := formatMember opts.user
    let r := revokeLoop env dryRun member s.grantedRoles [] s
    (Except.ok (), r.2)

/-- The member filter shared by `ListTemporaryBindings` and
`CleanTemporaryBindings`: a `user:` principal, equal to the requested
user when a filter is given. -/
def memberPred (user : String) (m : String) : Bool :=
  hasPrefixStr m "user:" && (user == "" || m == formatMember user)

/-- A reported line of `ListTemporaryBindings`. -/
structure ListedBinding where
  role : String
  member : String
  expires : String
  bindingID : String
deriving DecidableEq

/-- The matches a single binding contributes to the `List` report. -/
def listMatchesOne (b : Binding) (user : String) : List ListedBinding :=
  match b.condition with
  | none => []
  | some c =>
    if hasPrefixStr c.title gcpBindingTitlePrefix then
      (b.members.filter (memberPred user)).map fun m =>
        { role := b.role, member := m,
          expires := trimPrefixStr
            (trimPrefixStr c.expression "request.time < timestamp(\x27") "\x27)",
          bindingID := c.title }
    else []

/-- The scan of `ListTemporaryBindings`: every marker-titled binding
contributes one line per member passing the member filter. -/
def listMatches : List Binding → String → List ListedBinding
  | [], _ => []
  | b :: rest, user => listMatchesOne b user ++ listMatches rest user

/-- `ListTemporaryBindings`: fetch and report; the report is returned as
the operation's value (the source logs each line). -/
def listTemporaryBindings (env : Env) (opts : GCPOptions) (s : PState) :
    Except String (List ListedBinding) × PState :=
  match getIAMPolicy env s with
  | (none, s1) => (Except.error "failed to get IAM policy", s1)
  | (some policy, s1) => (Except.ok (listMatches policy.bindings opts.user), s1)

/-- The matches a single binding at index `i` contributes to the match
list of `CleanTemporaryBindings`. -/
def collectTempOne (b : Binding) (user : String) (i : Nat) : List temporaryBinding :=
  match b.condition with
  | none => []
  | some c =>
    if hasPrefixStr c.title gcpBindingTitlePrefix then
      (b.members.filter (memberPred user)).map fun m =>
        { role := b.role, member := m, bindingID := c.title, index := i }
    else []

/-- The collection pass of `CleanTemporaryBindings`: matches in binding
order, each recording the binding's index in the policy. -/
def collectTemp : List Binding → String → Nat → List temporaryBinding
  | [], _, _ => []
  | b :: rest, user, i => collectTempOne b user i ++ collectTemp rest user (i + 1)

/-- One removal step of `CleanTemporaryBindings`: look up the binding at
the recorded index, drop the matched member, and delete the binding if
no members remain. The source indexes the slice directly, so an
out-of-range index is a runtime panic in Go; the `none` branch keeps
the list unchanged and is unreachable under the theorems' hypotheses. -/
def removeOne (bs : List Binding) (t : temporaryBinding) : List Binding :=
  match bs[t.index]? with
  | none => bs
  | some policyBinding =>
    let newMembers := policyBinding.members.filter (fun m => m != t.member)
    if newMembers.isEmpty then bs.eraseIdx t.index
    else bs.set t.index { policyBinding with members := newMembers }

/-- The removal loop of `CleanTemporaryBindings`: the matches are
processed in reverse order (`for i := len(bindings)-1; i >= 0; i--`). -/
def removeAllRev (bs : List Binding) : List temporaryBinding → List Binding
  | [] => bs
  | t :: ts => removeOne (removeAllRev bs ts) t

/-- `CleanTemporaryBindings`: fetch, collect the matches, report them,
and (unless dry-run) remove them and write the policy back once. -/
def cleanTemporaryBindings (env : Env) (dryRun : Bool) (opts : GCPOptions) (s : PState) :
    Except String Unit × PState :=
  match getIAMPolicy env s with
  | (none, s1) => (Except.error "failed to get IAM policy", s1)
  | (some policy, s1) =>
    let bindings := collectTemp policy.bindings opts.user 0
    if bindings.isEmpty then (Except.ok (), s1)
    else
      let s2 := { s1 with reported := s1.reported ++ bindings }
      if dryRun then (Except.ok (), s2)
      else
        let policy2 : Policy := { policy with bindings := removeAllRev policy.bindings bindings }
        match setIAMPolicy env s2 policy2 with
        | (false, s3) => (Except.error "failed to update IAM policy", s3)
        | (true, s3) => (Except.ok (), s3)

/-- Modelled from the spec: the stable reference cleanup for one binding.
It rebuilds the entry excluding matched members by identity: a binding
some of whose members matched keeps exactly its unmatched members and is
dropped entirely when none remain; a binding with no matched member is
kept unchanged. -/
def cleanStableOne (b : Binding) (user : String) : List Binding :=
  match b.condition with
  | none => [b]
  | some c =>
    if hasPrefixStr c.title gcpBindingTitlePrefix then
      if (b.members.filter (memberPred user)).isEmpty then [b]
      else
        let remaining := b.members.filter fun m => !(memberPred user m)
        if remaining.isEmpty then [] else [{ b with members := remaining }]
    else [b]

/-- Modelled from the spec: the stable reference approach for bulk
cleanup — rebuild the binding collection, excluding matched members,
keeping surviving bindings in their original relative order. -/
def cleanStable : List Binding → String → List Binding
  | [], _ => []
  | b :: rest, user => cleanStableOne b user ++ cleanStable rest user

theorem getElem?_append_cons_length {α : Type} (pre : List α) (b : α) (post : List α) :
    (pre ++ b :: post)[pre.length]? = some b := by
  induction pre with
  | nil => simp
  | cons x xs ih =>
    simp only [List.cons_append, List.length_cons, List.getElem?_cons_succ]
    exact ih

theorem eraseIdx_append_cons_length {α : Type} (pre : List α) (b : α) (post : List α) :
    (pre ++ b :: post).eraseIdx pre.length = pre ++ post := by
  induction pre with
  | nil => rfl
  | cons x xs ih => simp [List.eraseIdx_cons_succ, ih]

theorem set_append_cons_length {α : Type} (pre : List α) (b v : α) (post : List α) :
    (pre ++ b :: post).set pre.length v = pre ++ v :: post := by
  induction pre with
  | nil => rfl
  | cons x xs ih => simp [List.set_cons_succ, ih]

theorem revokeOne_append_no_match (pre rest : List Binding) (g : GrantedRole)
    (member : String) (hpre : ∀ x ∈ pre, bindingMatches x g = false) :
    revokeOne (pre ++ rest) g member = pre ++ revokeOne rest g member := by
  induction pre with
  | nil => rfl
  | cons x xs ih =>
    have hx : bindingMatches x g = false := hpre x (by simp)
    simp only [List.cons_append, revokeOne, hx, Bool.false_eq_true, if_false,
      List.append_eq]
    rw [ih fun y hy => hpre y (by simp [hy])]

theorem grantLoop_dryRun (env : Env) (member : String) (ttl : Nat) :
    ∀ (roles errs : List String) (s : PState),
      grantLoop env true member ttl roles errs s = (errs, s) := by
  intro roles
  induction roles with
  | nil => intro errs s; rfl
  | cons r rest ih => intro errs s; simpa [grantLoop] using ih errs s

/-- C10: in dry-run mode, with a resolvable user, `Grant` performs no
remote fetch or write, appends nothing to the session's granted-role
list, and returns success, whatever the role list: the provider state is
returned entirely unchanged. -/
theorem grant_dryRun_noop (env : Env) (opts : GCPOptions) (s : PState) (u : String)
    (h : resolvedUser env opts = some u) :
    grant env true opts s = (Except.ok (), s) := by
  simp [grant, h, grantLoop_dryRun]

theorem grant_dryRun_noop_witness :
    resolvedUser ⟨fun _ => true, fun _ => true, id, none⟩
        ⟨"p", ["viewer"], "a@b", 5⟩ = some "a@b" ∧
    grant ⟨fun _ => true, fun _ => true, id, none⟩ true ⟨"p", ["viewer"], "a@b", 5⟩
        (newGCPProvider ⟨1, []⟩) = (Except.ok (), newGCPProvider ⟨1, []⟩) :=
  ⟨by decide,
   grant_dryRun_noop ⟨fun _ => true, fun _ => true, id, none⟩
     ⟨"p", ["viewer"], "a@b", 5⟩ (newGCPProvider ⟨1, []⟩) "a@b" (by decide)⟩

/-- C6: a dry-run `Clean` never calls set-policy and leaves the remote
policy untouched (so a later fetch sees the same document); when the
fetch succeeds the matched bindings are reported, and nothing else
happens. -/
theorem clean_dryRun_frame (env : Env) (opts : GCPOptions) (s : PState) :
    (cleanTemporaryBindings env true opts s).2.remote = s.remote ∧
    (cleanTemporaryBindings env true opts s).2.setCalls = s.setCalls ∧
    (cleanTemporaryBindings env true opts s).2.setLog = s.setLog ∧
    (cleanTemporaryBindings env true opts s).2.reported =
      s.reported ++
        (if env.getOk s.getCalls then collectTemp s.remote.bindings opts.user 0
         else []) := by
  by_cases hg : env.getOk s.getCalls
  · simp only [cleanTemporaryBindings, getIAMPolicy, hg, if_true]
    by_cases he : (collectTemp s.remote.bindings opts.user 0).isEmpty
    · have : collectTemp s.remote.bindings opts.user 0 = [] := List.isEmpty_iff.mp he
      simp [this]
    · simp only [he, Bool.false_eq_true, if_false]
      simp
  · simp [cleanTemporaryBindings, getIAMPolicy, hg]

/-- C2: when `Revoke` (first matching binding) or `Clean` (binding at the
recorded index) removes a member from a binding: if no member remains the
whole binding is deleted from the policy, and otherwise the binding stays
with exactly the target member excluded — the target no longer occurs and
every other member keeps its multiplicity and order. -/
theorem removal_last_member_deletes_binding
    (pre post : List Binding) (b : Binding) (g : GrantedRole)
    (member tr tid : String)
    (hpre : ∀ x ∈ pre, bindingMatches x g = false)
    (hb : bindingMatches b g = true) :
    (b.members.filter (fun m => m != member) = [] →
      revokeOne (pre ++ b :: post) g member = pre ++ post ∧
      removeOne (pre ++ b :: post) ⟨tr, member, tid, pre.length⟩ = pre ++ post) ∧
    (b.members.filter (fun m => m != member) ≠ [] →
      revokeOne (pre ++ b :: post) g member =
        pre ++ { b with members := b.members.filter (fun m => m != member) } :: post ∧
      removeOne (pre ++ b :: post) ⟨tr, member, tid, pre.length⟩ =
        pre ++ { b with members := b.members.filter (fun m => m != member) } :: post ∧
      member ∉ b.members.filter (fun m => m != member) ∧
      ∀ x, x ≠ member →
        (b.members.filter (fun m => m != member)).count x = b.members.count x) := by
  constructor
  · intro hempty
    have hisEmpty : (b.members.filter (fun m => m != member)).isEmpty = true := by
      simp [hempty]
    constructor
    · rw [revokeOne_append_no_match pre (b :: post) g member hpre]
      simp [revokeOne, hb, hisEmpty]
    · have hget : (pre ++ b :: post)[(⟨tr, member, tid, pre.length⟩ : temporaryBinding).index]? = some b :=
        getElem?_append_cons_length pre b post
      simp only [removeOne, hget, hisEmpty, if_true]
      exact eraseIdx_append_cons_length pre b post
  · intro hne
    have hisEmpty : (b.members.filter (fun m => m != member)).isEmpty = false := by
      simpa [List.isEmpty_iff] using hne
    refine ⟨?_, ?_, ?_, ?_⟩
    · rw [revokeOne_append_no_match pre (b :: post) g member hpre]
      simp [revokeOne, hb, hisEmpty]
    · have hget : (pre ++ b :: post)[(⟨tr, member, tid, pre.length⟩ : temporaryBinding).index]? = some b :=
        getElem?_append_cons_length pre b post
      simp only [removeOne, hget, hisEmpty, Bool.false_eq_true, if_false]
      exact set_append_cons_length pre b _ post
    · intro hmem
      have := List.of_mem_filter hmem
      simp at this
    · intro x hx
      exact List.count_filter (by simpa using hx)

theorem removal_last_member_deletes_binding_witness :
    ((∀ x ∈ ([] : List Binding), bindingMatches x ⟨"roles/viewer", "gta_temporary_access_7"⟩ = false) ∧
      bindingMatches ⟨"roles/viewer", ["user:a@b", "user:c@d"], some ⟨"gta_temporary_access_7", "d", "e"⟩⟩
        ⟨"roles/viewer", "gta_temporary_access_7"⟩ = true) ∧
    (["user:a@b", "user:c@d"].filter (fun m => m != "user:a@b") ≠ [] →
      revokeOne ([] ++ ⟨"roles/viewer", ["user:a@b", "user:c@d"], some ⟨"gta_temporary_access_7", "d", "e"⟩⟩ :: []) ⟨"roles/viewer", "gta_temporary_access_7"⟩ "user:a@b" =
        [] ++ { role := "roles/viewer", members := ["user:a@b", "user:c@d"].filter (fun m => m != "user:a@b"), condition := some ⟨"gta_temporary_access_7", "d", "e"⟩ } :: [] ∧
      removeOne ([] ++ ⟨"roles/viewer", ["user:a@b", "user:c@d"], some ⟨"gta_temporary_access_7", "d", "e"⟩⟩ :: []) ⟨"r", "user:a@b", "t", List.length ([] : List Binding)⟩ =
        [] ++ { role := "roles/viewer", members := ["user:a@b", "user:c@d"].filter (fun m => m != "user:a@b"), condition := some ⟨"gta_temporary_access_7", "d", "e"⟩ } :: [] ∧
      "user:a@b" ∉ ["user:a@b", "user:c@d"].filter (fun m => m != "user:a@b") ∧
      ∀ x, x ≠ "user:a@b" →
        (["user:a@b", "user:c@d"].filter (fun m => m != "user:a@b")).count x = ["user:a@b", "user:c@d"].count x) :=
  ⟨⟨by decide, by decide⟩,
   (removal_last_member_deletes_binding [] []
      ⟨"roles/viewer", ["user:a@b", "user:c@d"], some ⟨"gta_temporary_access_7", "d", "e"⟩⟩
      ⟨"roles/viewer", "gta_temporary_access_7"⟩ "user:a@b" "r" "t"
      (by decide) (by decide)).2⟩

theorem getIAMPolicy_of_ok {env : Env} {s : PState} (hg : env.getOk s.getCalls = true) :
    getIAMPolicy env s =
      (some { s.remote with version := policyVersion },
       { s with getCalls := s.getCalls + 1 }) := by
  simp [getIAMPolicy, hg]

theorem getIAMPolicy_of_fail {env : Env} {s : PState} (hg : env.getOk s.getCalls = false) :
    getIAMPolicy env s = (none, { s with getCalls := s.getCalls + 1 }) := by
  simp [getIAMPolicy, hg]

theorem setIAMPolicy_of_ok {env : Env} {s : PState} {p : Policy}
    (hs : env.setOk s.setCalls = true) :
    setIAMPolicy env s p =
      (true,
       { s with
          setCalls := s.setCalls + 1
          setLog := s.setLog ++ [p]
          remote := p }) := by
  simp [setIAMPolicy, hs]

theorem setIAMPolicy_of_fail {env : Env} {s : PState} {p : Policy}
    (hs : env.setOk s.setCalls = false) :
    setIAMPolicy env s p =
      (false, { s with setCalls := s.setCalls + 1, setLog := s.setLog ++ [p] }) := by
  simp [setIAMPolicy, hs]

theorem createBinding_state (env : Env) (s : PState) (role member : String) (ttl : Nat) :
    (createBinding env s role member ttl).2 =
      { s with clockReads := s.clockReads + 1 + 1 + 1,
               created := s.created ++ [(createBinding env s role member ttl).1] } := rfl

theorem createBinding_fst (env : Env) (s : PState) (role member : String) (ttl : Nat) :
    (createBinding env s role member ttl).1 =
      { role := role, members := [member],
        condition := some
          { title := mkBindingID (env.nowAt (s.clockReads + 1)),
            description := "Temporary access granted by GTA tool at " ++
              natToDecimal (env.nowAt (s.clockReads + 1 + 1)),
            expression := "request.time < timestamp(\x27" ++
              natToDecimal (env.nowAt s.clockReads + ttl) ++ "\x27)" } } := rfl

theorem grantLoop_spec (env : Env) (member : String) (ttl : Nat) :
    ∀ (roles errs : List String) (s : PState),
      (grantLoop env false member ttl roles errs s).2.getCalls =
          s.getCalls + roles.length ∧
      (grantLoop env false member ttl roles errs s).1.length +
          (grantLoop env false member ttl roles errs s).2.grantedRoles.length =
        errs.length + s.grantedRoles.length + roles.length ∧
      (∀ q ∈ (grantLoop env false member ttl roles errs s).2.setLog,
        q ∈ s.setLog ∨ q.version = policyVersion) := by
  intro roles
  induction roles with
  | nil =>
    intro errs s
    exact ⟨by simp [grantLoop], by simp [grantLoop], fun q hq => Or.inl hq⟩
  | cons role rest ih =>
    intro errs s
    have key : ∀ (errs2 : List String) (s2 : PState),
        s2.getCalls = s.getCalls + 1 →
        errs2.length + s2.grantedRoles.length =
          errs.length + s.grantedRoles.length + 1 →
        (∀ q ∈ s2.setLog, q ∈ s.setLog ∨ q.version = policyVersion) →
        (grantLoop env false member ttl rest errs2 s2).2.getCalls =
            s.getCalls + (role :: rest).length ∧
        (grantLoop env false member ttl rest errs2 s2).1.length +
            (grantLoop env false member ttl rest errs2 s2).2.grantedRoles.length =
          errs.length + s.grantedRoles.length + (role :: rest).length ∧
        (∀ q ∈ (grantLoop env false member ttl rest errs2 s2).2.setLog,
          q ∈ s.setLog ∨ q.version = policyVersion) := by
      intro errs2 s2 hgc hlen hlog
      obtain ⟨h1, h2, h3⟩ := ih errs2 s2
      refine ⟨?_, ?_, ?_⟩
      · rw [h1, hgc]; simp [List.length_cons]; omega
      · rw [h2]; simp only [List.length_cons]; omega
      · intro q hq
        rcases h3 q hq with h | h
        · exact hlog q h
        · exact Or.inr h
    by_cases hg : env.getOk s.getCalls
    · by_cases hs : env.setOk s.setCalls
      · simp only [grantLoop, Bool.false_eq_true, if_false, getIAMPolicy, hg,
          if_true, createBinding_state, setIAMPolicy, hs]
        apply key
        · rfl
        · simp; omega
        · intro q hq
          simp only [List.mem_append, List.mem_singleton] at hq
          rcases hq with h | h
          · exact Or.inl h
          · subst h; exact Or.inr rfl
      · simp only [grantLoop, Bool.false_eq_true, if_false, getIAMPolicy, hg,
          if_true, createBinding_state, setIAMPolicy, hs]
        apply key
        · rfl
        · simp; omega
        · intro q hq
          simp only [List.mem_append, List.mem_singleton] at hq
          rcases hq with h | h
          · exact Or.inl h
          · subst h; exact Or.inr rfl
    · simp only [grantLoop, Bool.false_eq_true, if_false, getIAMPolicy, hg]
      apply key
      · rfl
      · simp; omega
      · intro q hq
        exact Or.inl hq

/-- C1: with a non-empty role list and dry-run disabled, `Grant` fetches
once per role (processing continues past per-role failures to every
remaining role); on a fresh session it returns success as soon as at
least one role's write succeeded (failures are only aggregated and
logged), and returns an error exactly when no role succeeded. -/
theorem grant_partial_success (env : Env) (opts : GCPOptions) (s : PState) (u : String)
    (hroles : opts.roles ≠ []) (hu : resolvedUser env opts = some u)
    (hfresh : s.grantedRoles = []) :
    (grant env false opts s).2.getCalls = s.getCalls + opts.roles.length ∧
    ((grant env false opts s).2.grantedRoles ≠ [] →
      (grant env false opts s).1 = Except.ok ()) ∧
    ((grant env false opts s).2.grantedRoles = [] →
      (grant env false opts s).1 = Except.error "failed to grant any roles") := by
  obtain ⟨h1, h2, h3⟩ :=
    grantLoop_spec env (formatMember u) opts.ttl opts.roles [] s
  rw [hfresh] at h2
  simp only [List.length_nil, Nat.zero_add] at h2
  have hrlen : opts.roles.length ≠ 0 := by
    intro h
    exact hroles (List.length_eq_zero.mp h)
  simp only [grant, hu]
  by_cases hE : (grantLoop env false (formatMember u) opts.ttl opts.roles [] s).1 = []
  · rw [if_neg (by simp [hE])]
    refine ⟨h1, fun _ => rfl, fun hemp => ?_⟩
    exfalso
    have hemp2 :
        (grantLoop env false (formatMember u) opts.ttl opts.roles [] s).2.grantedRoles = [] :=
      hemp
    rw [hE, hemp2] at h2
    simp only [List.length_nil] at h2
    exact hrlen (by omega)
  · rw [if_pos hE]
    by_cases hG :
        (grantLoop env false (formatMember u) opts.ttl opts.roles [] s).2.grantedRoles = []
    · rw [if_pos hG]
      exact ⟨h1, fun hne => absurd hG hne, fun _ => rfl⟩
    · rw [if_neg hG]
      exact ⟨h1, fun _ => rfl, fun hemp => absurd hemp hG⟩

theorem grant_partial_success_witness :
    (["viewer"] : List String) ≠ [] ∧
    resolvedUser ⟨fun _ => true, fun _ => true, id, none⟩ ⟨"p", ["viewer"], "a@b", 5⟩ =
      some "a@b" ∧
    (newGCPProvider ⟨1, []⟩).grantedRoles = [] ∧
    ((grant ⟨fun _ => true, fun _ => true, id, none⟩ false ⟨"p", ["viewer"], "a@b", 5⟩
        (newGCPProvider ⟨1, []⟩)).2.getCalls = (newGCPProvider ⟨1, []⟩).getCalls + 1 ∧
     ((grant ⟨fun _ => true, fun _ => true, id, none⟩ false ⟨"p", ["viewer"], "a@b", 5⟩
        (newGCPProvider ⟨1, []⟩)).2.grantedRoles ≠ [] →
      (grant ⟨fun _ => true, fun _ => true, id, none⟩ false ⟨"p", ["viewer"], "a@b", 5⟩
        (newGCPProvider ⟨1, []⟩)).1 = Except.ok ()) ∧
     ((grant ⟨fun _ => true, fun _ => true, id, none⟩ false ⟨"p", ["viewer"], "a@b", 5⟩
        (newGCPProvider ⟨1, []⟩)).2.grantedRoles = [] →
      (grant ⟨fun _ => true, fun _ => true, id, none⟩ false ⟨"p", ["viewer"], "a@b", 5⟩
        (newGCPProvider ⟨1, []⟩)).1 = Except.error "failed to grant any roles")) :=
  ⟨by decide, by decide, rfl,
   grant_partial_success ⟨fun _ => true, fun _ => true, id, none⟩
     ⟨"p", ["viewer"], "a@b", 5⟩ (newGCPProvider ⟨1, []⟩) "a@b"
     (by decide) (by decide) rfl⟩

theorem bindingMatches_members_irrelevant (x : Binding) (nm : List String)
    (g : GrantedRole) :
    bindingMatches { x with members := nm } g = bindingMatches x g := rfl

theorem revokeOne_count (b : Binding) (g : GrantedRole) (member : String)
    (hb : bindingMatches b g = false) :
    ∀ bs : List Binding, (revokeOne bs g member).count b = bs.count b := by
  intro bs
  induction bs with
  | nil => rfl
  | cons x rest ih =>
    by_cases hx : bindingMatches x g
    · have hxb : ¬(x = b) := by
        intro h
        rw [h, hb] at hx
        exact absurd hx (by simp)
      simp only [revokeOne, hx, if_true]
      by_cases he : (x.members.filter (fun m => m != member)).isEmpty
      · simp only [he, if_true]
        rw [List.count_cons]
        simp [hxb]
      · simp only [he, Bool.false_eq_true, if_false]
        have hxb2 : ¬({ x with members := x.members.filter (fun m => m != member) } = b) := by
          intro h
          rw [← h, bindingMatches_members_irrelevant, hx] at hb
          exact absurd hb (by simp)
        rw [List.count_cons, List.count_cons]
        simp [hxb, hxb2]
    · have hx2 : bindingMatches x g = false := by simpa using hx
      simp only [revokeOne, hx2, Bool.false_eq_true, if_false]
      rw [List.count_cons, List.count_cons, ih]

theorem revokeLoop_version (env : Env) (dryRun : Bool) (member : String) :
    ∀ (gs : List GrantedRole) (errs : List String) (s : PState),
      ∀ q ∈ (revokeLoop env dryRun member gs errs s).2.setLog,
        q ∈ s.setLog ∨ q.version = policyVersion := by
  intro gs
  induction gs with
  | nil => intro errs s q hq; exact Or.inl hq
  | cons g rest ih =>
    intro errs s
    have key : ∀ (errs2 : List String) (s2 : PState),
        (∀ q ∈ s2.setLog, q ∈ s.setLog ∨ q.version = policyVersion) →
        ∀ q ∈ (revokeLoop env dryRun member rest errs2 s2).2.setLog,
          q ∈ s.setLog ∨ q.version = policyVersion := by
      intro errs2 s2 hlog q hq
      rcases ih errs2 s2 q hq with h | h
      · exact hlog q h
      · exact Or.inr h
    by_cases hd : dryRun = true
    · subst hd
      simp only [revokeLoop, if_true]
      exact key errs s fun q hq => Or.inl hq
    · have hd2 : dryRun = false := by simpa using hd
      subst hd2
      by_cases hg : env.getOk s.getCalls
      · by_cases hs : env.setOk s.setCalls
        · simp only [revokeLoop, Bool.false_eq_true, if_false,
            getIAMPolicy, hg, if_true, setIAMPolicy, hs]
          apply key
          intro q hq
          simp only [List.mem_append, List.mem_singleton] at hq
          rcases hq with h | h
          · exact Or.inl h
          · subst h; exact Or.inr rfl
        · simp only [revokeLoop, Bool.false_eq_true, if_false,
            getIAMPolicy, hg, if_true, setIAMPolicy, hs]
          apply key
          intro q hq
          simp only [List.mem_append, List.mem_singleton] at hq
          rcases hq with h | h
          · exact Or.inl h
          · subst h; exact Or.inr rfl
      · simp only [revokeLoop, Bool.false_eq_true, if_false,
          getIAMPolicy, hg]
        apply key
        intro q hq
        exact Or.inl hq

theorem revokeLoop_count (env : Env) (dryRun : Bool) (member : String) (b : Binding) :
    ∀ (gs : List GrantedRole) (errs : List String) (s : PState),
      (∀ g ∈ gs, bindingMatches b g = false) →
      (revokeLoop env dryRun member gs errs s).2.remote.bindings.count b =
          s.remote.bindings.count b ∧
      (∀ q ∈ (revokeLoop env dryRun member gs errs s).2.setLog,
        q ∈ s.setLog ∨ q.bindings.count b = s.remote.bindings.count b) := by
  intro gs
  induction gs with
  | nil =>
    intro errs s _
    exact ⟨rfl, fun q hq => Or.inl hq⟩
  | cons g rest ih =>
    intro errs s hno
    have hg0 : bindingMatches b g = false := hno g (by simp)
    have hrest : ∀ g2 ∈ rest, bindingMatches b g2 = false :=
      fun g2 h2 => hno g2 (by simp [h2])
    have key : ∀ (errs2 : List String) (s2 : PState),
        s2.remote.bindings.count b = s.remote.bindings.count b →
        (∀ q ∈ s2.setLog, q ∈ s.setLog ∨
          q.bindings.count b = s.remote.bindings.count b) →
        (revokeLoop env dryRun member rest errs2 s2).2.remote.bindings.count b =
            s.remote.bindings.count b ∧
        (∀ q ∈ (revokeLoop env dryRun member rest errs2 s2).2.setLog,
          q ∈ s.setLog ∨ q.bindings.count b = s.remote.bindings.count b) := by
      intro errs2 s2 hrem hlog
      obtain ⟨h1, h2⟩ := ih errs2 s2 hrest
      refine ⟨by rw [h1, hrem], ?_⟩
      intro q hq
      rcases h2 q hq with h | h
      · exact hlog q h
      · exact Or.inr (by rw [h, hrem])
    have hcnt : (revokeOne s.remote.bindings g member).count b =
        s.remote.bindings.count b := revokeOne_count b g member hg0 _
    by_cases hd : dryRun = true
    · subst hd
      simp only [revokeLoop, if_true]
      exact key errs s rfl fun q hq => Or.inl hq
    · have hd2 : dryRun = false := by simpa using hd
      subst hd2
      by_cases hg : env.getOk s.getCalls
      · by_cases hs : env.setOk s.setCalls
        · simp only [revokeLoop, Bool.false_eq_true, if_false,
            getIAMPolicy, hg, if_true, setIAMPolicy, hs]
          apply key
          · exact hcnt
          · intro q hq
            simp only [List.mem_append, List.mem_singleton] at hq
            rcases hq with h | h
            · exact Or.inl h
            · subst h; exact Or.inr hcnt
        · simp only [revokeLoop, Bool.false_eq_true, if_false,
            getIAMPolicy, hg, if_true, setIAMPolicy, hs]
          apply key
          · rfl
          · intro q hq
            simp only [List.mem_append, List.mem_singleton] at hq
            rcases hq with h | h
            · exact Or.inl h
            · subst h; exact Or.inr hcnt
      · simp only [revokeLoop, Bool.false_eq_true, if_false,
          getIAMPolicy, hg]
        apply key
        · rfl
        · intro q hq
          exact Or.inl hq

/-- C3: a `Revoke` run never removes or modifies any binding whose role
and condition title do not both match one of the session's recorded
grants: every such binding keeps its exact multiplicity in the final
remote policy, and in every policy written back during the run. -/
theorem revoke_untouched_foreign_bindings (env : Env) (dryRun : Bool)
    (opts : GCPOptions) (s : PState) (b : Binding)
    (h : ∀ g ∈ s.grantedRoles, bindingMatches b g = false) :
    (revoke env dryRun opts s).2.remote.bindings.count b =
        s.remote.bindings.count b ∧
    (∀ q ∈ (revoke env dryRun opts s).2.setLog,
      q ∈ s.setLog ∨ q.bindings.count b = s.remote.bindings.count b) := by
  by_cases he : s.grantedRoles.isEmpty
  · constructor
    · simp [revoke, he]
    · simp only [revoke, he, if_true]
      exact fun q hq => Or.inl hq
  · simp only [revoke, he, Bool.false_eq_true, if_false]
    exact revokeLoop_count env dryRun (formatMember opts.user) b
      s.grantedRoles [] s h

theorem revoke_untouched_foreign_bindings_witness :
    (∀ g ∈ [(⟨"roles/viewer", "gta_temporary_access_5"⟩ : GrantedRole)],
      bindingMatches ⟨"roles/owner", ["user:x@y"], none⟩ g = false) ∧
    ((revoke ⟨fun _ => true, fun _ => true, id, none⟩ false ⟨"p", [], "x@y", 0⟩
        { newGCPProvider ⟨1, [⟨"roles/owner", ["user:x@y"], none⟩]⟩ with
            grantedRoles := [⟨"roles/viewer", "gta_temporary_access_5"⟩] }).2.remote.bindings.count
          ⟨"roles/owner", ["user:x@y"], none⟩ =
        [(⟨"roles/owner", ["user:x@y"], none⟩ : Binding)].count
          ⟨"roles/owner", ["user:x@y"], none⟩ ∧
     (∀ q ∈ (revoke ⟨fun _ => true, fun _ => true, id, none⟩ false ⟨"p", [], "x@y", 0⟩
        { newGCPProvider ⟨1, [⟨"roles/owner", ["user:x@y"], none⟩]⟩ with
            grantedRoles := [⟨"roles/viewer", "gta_temporary_access_5"⟩] }).2.setLog,
       q ∈ ([] : List Policy) ∨ q.bindings.count ⟨"roles/owner", ["user:x@y"], none⟩ =
         [(⟨"roles/owner", ["user:x@y"], none⟩ : Binding)].count
           ⟨"roles/owner", ["user:x@y"], none⟩)) :=
  ⟨by decide,
   revoke_untouched_foreign_bindings ⟨fun _ => true, fun _ => true, id, none⟩ false
     ⟨"p", [], "x@y", 0⟩
     { newGCPProvider ⟨1, [⟨"roles/owner", ["user:x@y"], none⟩]⟩ with
         grantedRoles := [⟨"roles/viewer", "gta_temporary_access_5"⟩] }
     ⟨"roles/owner", ["user:x@y"], none⟩ (by decide)⟩

theorem grant_snd (env : Env) (dryRun : Bool) (opts : GCPOptions) (s : PState) :
    (grant env dryRun opts s).2 = s ∨
    ∃ u, resolvedUser env opts = some u ∧
      (grant env dryRun opts s).2 =
        (grantLoop env dryRun (formatMember u) opts.ttl opts.roles [] s).2 := by
  rcases hru : resolvedUser env opts with _ | u
  · exact Or.inl (by simp [grant, hru])
  · refine Or.inr ⟨u, rfl, ?_⟩
    simp only [grant, hru]
    split
    · split
      · rfl
      · rfl
    · rfl

theorem clean_setLog_version (env : Env) (dryRun : Bool) (opts : GCPOptions)
    (s : PState) :
    ∀ q ∈ (cleanTemporaryBindings env dryRun opts s).2.setLog,
      q ∈ s.setLog ∨ q.version = policyVersion := by
  by_cases hg : env.getOk s.getCalls
  · simp only [cleanTemporaryBindings, getIAMPolicy, hg, if_true]
    by_cases he : (collectTemp s.remote.bindings opts.user 0).isEmpty
    · simp only [he, if_true]
      exact fun q hq => Or.inl hq
    · simp only [he, Bool.false_eq_true, if_false]
      by_cases hd : dryRun = true
      · subst hd
        simp only [if_true]
        exact fun q hq => Or.inl hq
      · have hd2 : dryRun = false := by simpa using hd
        subst hd2
        simp only [Bool.false_eq_true, if_false, setIAMPolicy]
        by_cases hs : env.setOk s.setCalls
        · simp only [hs, if_true]
          intro q hq
          simp only [List.mem_append, List.mem_singleton] at hq
          rcases hq with h | h
          · exact Or.inl h
          · subst h; exact Or.inr rfl
        · simp only [hs, Bool.false_eq_true, if_false]
          intro q hq
          simp only [List.mem_append, List.mem_singleton] at hq
          rcases hq with h | h
          · exact Or.inl h
          · subst h; exact Or.inr rfl
  · simp only [cleanTemporaryBindings, getIAMPolicy, hg, Bool.false_eq_true, if_false]
    exact fun q hq => Or.inl hq

/-- C8: every fetch returns a policy whose version field is set to the
value that enables conditional bindings (3), and every policy that
`Grant`, `Revoke` or `Clean` passes to a set-policy call during a run has
that version: no operation writes a policy without it. -/
theorem policy_version_on_every_write :
    (∀ (env : Env) (s : PState) (p : Policy),
      (getIAMPolicy env s).1 = some p → p.version = policyVersion) ∧
    (∀ (env : Env) (dryRun : Bool) (opts : GCPOptions) (s : PState),
      ∀ q ∈ (grant env dryRun opts s).2.setLog,
        q ∈ s.setLog ∨ q.version = policyVersion) ∧
    (∀ (env : Env) (dryRun : Bool) (opts : GCPOptions) (s : PState),
      ∀ q ∈ (revoke env dryRun opts s).2.setLog,
        q ∈ s.setLog ∨ q.version = policyVersion) ∧
    (∀ (env : Env) (dryRun : Bool) (opts : GCPOptions) (s : PState),
      ∀ q ∈ (cleanTemporaryBindings env dryRun opts s).2.setLog,
        q ∈ s.setLog ∨ q.version = policyVersion) := by
  refine ⟨?_, ?_, ?_, ?_⟩
  · intro env s p hp
    by_cases hg : env.getOk s.getCalls
    · simp only [getIAMPolicy, hg, if_true] at hp
      rw [← Option.some_inj.mp hp]
    · simp [getIAMPolicy, hg] at hp
  · intro env dryRun opts s q hq
    rcases grant_snd env dryRun opts s with h | ⟨u, _, h⟩
    · rw [h] at hq
      exact Or.inl hq
    · rw [h] at hq
      by_cases hd : dryRun = true
      · subst hd
        rw [grantLoop_dryRun] at hq
        exact Or.inl hq
      · have hd2 : dryRun = false := by simpa using hd
        subst hd2
        exact (grantLoop_spec env (formatMember u) opts.ttl opts.roles [] s).2.2 q hq
  · intro env dryRun opts s q hq
    by_cases he : s.grantedRoles.isEmpty
    · simp only [revoke, he, if_true] at hq
      exact Or.inl hq
    · simp only [revoke, he, Bool.false_eq_true, if_false] at hq
      exact revokeLoop_version env dryRun (formatMember opts.user)
        s.grantedRoles [] s q hq
  · intro env dryRun opts s q hq
    exact clean_setLog_version env dryRun opts s q hq

theorem policy_version_on_every_write_witness :
    ((⟨policyVersion, []⟩ : Policy).version = policyVersion) ∧
    (((⟨policyVersion, []⟩ : Policy)) ∈ (({ newGCPProvider ⟨0, []⟩ with
            grantedRoles := [⟨"roles/viewer", "gta_temporary_access_5"⟩] } : PState)).setLog ∨
      (⟨policyVersion, []⟩ : Policy).version = policyVersion) :=
  ⟨policy_version_on_every_write.1 ⟨fun _ => true, fun _ => true, id, none⟩
      (newGCPProvider ⟨0, []⟩) ⟨policyVersion, []⟩ (by decide),
   policy_version_on_every_write.2.2.1 ⟨fun _ => true, fun _ => true, id, none⟩ false
     ⟨"p", [], "x@y", 0⟩
     { newGCPProvider ⟨0, []⟩ with
         grantedRoles := [⟨"roles/viewer", "gta_temporary_access_5"⟩] }
     ⟨policyVersion, []⟩ (by decide)⟩

theorem condTitle_createBinding (env : Env) (s : PState) (role member : String)
    (ttl : Nat) :
    condTitle (createBinding env s role member ttl).1 =
      mkBindingID (env.nowAt (s.clockReads + 1)) := rfl

theorem grantLoop_created_inv (env : Env) (dryRun : Bool) (member : String)
    (ttl : Nat) (hmono : StrictMono env.nowAt) :
    ∀ (roles errs : List String) (s : PState),
      (∀ x ∈ s.created, ∃ i, i < s.clockReads ∧
        condTitle x = mkBindingID (env.nowAt i)) →
      s.created.Pairwise (fun a b => condTitle a ≠ condTitle b) →
      (∀ x ∈ (grantLoop env dryRun member ttl roles errs s).2.created,
        ∃ i, i < (grantLoop env dryRun member ttl roles errs s).2.clockReads ∧
          condTitle x = mkBindingID (env.nowAt i)) ∧
      (grantLoop env dryRun member ttl roles errs s).2.created.Pairwise
        (fun a b => condTitle a ≠ condTitle b) := by
  intro roles
  induction roles with
  | nil => intro errs s h1 h2; exact ⟨h1, h2⟩
  | cons role rest ih =>
    intro errs s h1 h2
    by_cases hd : dryRun = true
    · subst hd
      simp only [grantLoop, if_true]
      exact ih errs s h1 h2
    · have hd2 : dryRun = false := by simpa using hd
      subst hd2
      by_cases hg : env.getOk s.getCalls
      · have hB := condTitle_createBinding env
          { s with getCalls := s.getCalls + 1 } (formatRole role) member ttl
        have hnew : ∀ (cr : List Binding) (ck : Nat), cr = s.created ++
              [(createBinding env { s with getCalls := s.getCalls + 1 }
                  (formatRole role) member ttl).1] →
            ck = s.clockReads + 1 + 1 + 1 →
            (∀ x ∈ cr, ∃ i, i < ck ∧ condTitle x = mkBindingID (env.nowAt i)) ∧
            cr.Pairwise (fun a b => condTitle a ≠ condTitle b) := by
          intro cr ck hcr hck
          subst hcr
          subst hck
          constructor
          · intro x hx
            rcases List.mem_append.mp hx with h | h
            · obtain ⟨i, hi, he⟩ := h1 x h
              exact ⟨i, by omega, he⟩
            · rw [List.mem_singleton.mp h]
              exact ⟨s.clockReads + 1, by omega, hB⟩
          · refine List.pairwise_append.mpr ⟨h2, by simp, ?_⟩
            intro a ha b hb
            rw [List.mem_singleton.mp hb]
            obtain ⟨i, hi, he⟩ := h1 a ha
            rw [he, hB]
            intro heq
            have h4 : i = s.clockReads + 1 := hmono.injective (mkBindingID_inj heq)
            omega
        by_cases hs : env.setOk s.setCalls
        · simp only [grantLoop, Bool.false_eq_true, if_false, getIAMPolicy, hg,
            if_true, createBinding_state, setIAMPolicy, hs]
          apply ih
          · exact (hnew _ _ rfl rfl).1
          · exact (hnew _ _ rfl rfl).2
        · simp only [grantLoop, Bool.false_eq_true, if_false, getIAMPolicy, hg,
            if_true, createBinding_state, setIAMPolicy, hs]
          apply ih
          · exact (hnew _ _ rfl rfl).1
          · exact (hnew _ _ rfl rfl).2
      · simp only [grantLoop, Bool.false_eq_true, if_false, getIAMPolicy, hg]
        exact ih _ _ h1 h2

/-- C7: any two bindings created by `Grant` in the same process have
distinct condition titles (the process clock is strictly monotone across
reads), and every created title is the fixed marker, an underscore and a
decimal nanosecond timestamp. -/
theorem grant_created_titles_unique (env : Env) (dryRun : Bool)
    (opts : GCPOptions) (s : PState)
    (hmono : StrictMono env.nowAt) (hcre : s.created = []) :
    (grant env dryRun opts s).2.created.Pairwise
      (fun a b => condTitle a ≠ condTitle b) ∧
    (∀ x ∈ (grant env dryRun opts s).2.created,
      ∃ t, condTitle x = gcpBindingTitlePrefix ++ "_" ++ natToDecimal t) := by
  rcases grant_snd env dryRun opts s with h | ⟨u, _, h⟩
  · rw [h, hcre]
    exact ⟨List.Pairwise.nil, by simp⟩
  · rw [h]
    obtain ⟨h1, h2⟩ := grantLoop_created_inv env dryRun (formatMember u) opts.ttl
      hmono opts.roles [] s (by rw [hcre]; simp) (by rw [hcre]; exact List.Pairwise.nil)
    refine ⟨h2, fun x hx => ?_⟩
    obtain ⟨i, _, he⟩ := h1 x hx
    exact ⟨env.nowAt i, he⟩

theorem grant_created_titles_unique_witness :
    StrictMono (id : Nat → Nat) ∧
    (newGCPProvider ⟨1, []⟩).created = [] ∧
    ((grant ⟨fun _ => true, fun _ => true, id, none⟩ false ⟨"p", ["viewer"], "a@b", 5⟩
        (newGCPProvider ⟨1, []⟩)).2.created.Pairwise
      (fun a b => condTitle a ≠ condTitle b) ∧
     (∀ x ∈ (grant ⟨fun _ => true, fun _ => true, id, none⟩ false
        ⟨"p", ["viewer"], "a@b", 5⟩ (newGCPProvider ⟨1, []⟩)).2.created,
      ∃ t, condTitle x = gcpBindingTitlePrefix ++ "_" ++ natToDecimal t)) :=
  ⟨strictMono_id, rfl,
   grant_created_titles_unique ⟨fun _ => true, fun _ => true, id, none⟩ false
     ⟨"p", ["viewer"], "a@b", 5⟩ (newGCPProvider ⟨1, []⟩) strictMono_id rfl⟩

theorem collectTemp_shift (u : String) :
    ∀ (bs : List Binding) (i : Nat),
      collectTemp bs u (i + 1) =
        (collectTemp bs u i).map
          (fun t => ⟨t.role, t.member, t.bindingID, t.index + 1⟩) := by
  intro bs
  induction bs with
  | nil => intro i; rfl
  | cons b rest ih =>
    intro i
    simp only [collectTemp, List.map_append, ih (i + 1)]
    congr 1
    simp only [collectTempOne]
    cases b.condition with
    | none => rfl
    | some c =>
      by_cases hm : hasPrefixStr c.title gcpBindingTitlePrefix
      · simp only [hm, if_true, List.map_map]
        rfl
      · simp only [hm, Bool.false_eq_true, if_false, List.map_nil]

theorem removeAllRev_append (bs : List Binding) :
    ∀ A B : List temporaryBinding,
      removeAllRev bs (A ++ B) = removeAllRev (removeAllRev bs B) A := by
  intro A B
  induction A with
  | nil => rfl
  | cons t ts ih => simp only [List.cons_append, removeAllRev, List.append_eq, ih]

theorem removeOne_cons_shift (b : Binding) (X : List Binding)
    (r m id0 : String) (i : Nat) :
    removeOne (b :: X) ⟨r, m, id0, i + 1⟩ = b :: removeOne X ⟨r, m, id0, i⟩ := by
  simp only [removeOne, List.getElem?_cons_succ]
  cases hx : X[i]? with
  | none => rfl
  | some pb =>
    by_cases he : (pb.members.filter (fun x => x != m)).isEmpty
    · simp only [he, if_true, List.eraseIdx_cons_succ]
    · simp only [he, Bool.false_eq_true, if_false, List.set_cons_succ]

theorem removeAllRev_cons_shift (b : Binding) (X : List Binding) :
    ∀ ts : List temporaryBinding,
      removeAllRev (b :: X)
          (ts.map (fun t => ⟨t.role, t.member, t.bindingID, t.index + 1⟩)) =
        b :: removeAllRev X ts := by
  intro ts
  induction ts with
  | nil => rfl
  | cons t ts ih =>
    simp only [List.map_cons, removeAllRev, ih, removeOne_cons_shift]

theorem isEmpty_false_of_mem {α : Type} {a : α} {l : List α} (h : a ∈ l) :
    l.isEmpty = false := by
  cases l with
  | nil => exact absurd h (List.not_mem_nil a)
  | cons x xs => rfl

theorem filter_filter_notContains (l : List String) (m : String) (T : List String) :
    (l.filter (fun x => !(T.contains x))).filter (fun x => x != m) =
      l.filter (fun x => !((m :: T).contains x)) := by
  rw [List.filter_filter]
  apply List.filter_congr
  intro a _
  simp only [List.contains_cons, Bool.not_or, bne]

theorem removeAllRev_head_members (r0 t0 : String) :
    ∀ (T : List String) (b : Binding) (Y : List Binding) (w : String),
      w ∈ b.members → w ∉ T →
      removeAllRev (b :: Y) (T.map fun m => ⟨r0, m, t0, 0⟩) =
        { b with members := b.members.filter (fun m => !(T.contains m)) } :: Y := by
  intro T
  induction T with
  | nil =>
    intro b Y w hw hnT
    have h : b.members.filter (fun m => !(([] : List String).contains m)) =
        b.members := by simp
    simp only [List.map_nil, removeAllRev, h]
  | cons m T' ih =>
    intro b Y w hw hnT
    have hnT' : w ∉ T' := fun h => hnT (by simp [h])
    have hwm : ¬(w = m) := fun h => hnT (by rw [h]; exact List.mem_cons_self m T')
    simp only [List.map_cons, removeAllRev]
    rw [ih b Y w hw hnT']
    simp only [removeOne, List.getElem?_cons_zero]
    have hA := filter_filter_notContains b.members m T'
    have hwin : w ∈ (b.members.filter (fun x => !(T'.contains x))).filter
        (fun x => x != m) := by
      rw [hA]
      refine List.mem_filter.mpr ⟨hw, ?_⟩
      simp only [List.contains_cons, Bool.not_or, Bool.and_eq_true, Bool.not_eq_true]
      constructor
      · simpa using hwm
      · simpa using hnT'
    have hemp : ((b.members.filter (fun x => !(T'.contains x))).filter
        (fun x => x != m)).isEmpty = false := isEmpty_false_of_mem hwin
    simp only [hemp, Bool.false_eq_true, if_false, List.set_cons_zero]
    rw [hA]

theorem removeAllRev_head_matches (b : Binding) (Y : List Binding) (u : String)
    (hnd : b.members.Nodup) :
    removeAllRev (b :: Y) (collectTempOne b u 0) = cleanStableOne b u ++ Y := by
  cases hc : b.condition with
  | none => simp [collectTempOne, hc, cleanStableOne, removeAllRev]
  | some c =>
    by_cases hm : hasPrefixStr c.title gcpBindingTitlePrefix
    · by_cases hSe : b.members.filter (memberPred u) = []
      · simp [collectTempOne, hc, hm, cleanStableOne, hSe, removeAllRev]
      · by_cases hall : ∀ x ∈ b.members, memberPred u x = true
        · have hSm : b.members.filter (memberPred u) = b.members :=
            List.filter_eq_self.mpr hall
          obtain ⟨s, S', hcons⟩ := List.exists_cons_of_ne_nil hSe
          have hndS : (b.members.filter (memberPred u)).Nodup := hnd.filter _
          have hsS' : s ∉ S' := by
            rw [hcons] at hndS
            exact (List.nodup_cons.mp hndS).1
          have hsmem : s ∈ b.members := by
            have h1 : s ∈ b.members.filter (memberPred u) := by
              rw [hcons]; exact List.mem_cons_self s S'
            exact (List.mem_filter.mp h1).1
          simp only [collectTempOne, hc, hm, if_true]
          rw [hcons]
          simp only [List.map_cons, removeAllRev]
          rw [removeAllRev_head_members b.role c.title S' b Y s hsmem hsS']
          simp only [removeOne, List.getElem?_cons_zero]
          have hA := filter_filter_notContains b.members s S'
          have hempty : b.members.filter (fun x => !((s :: S').contains x)) = [] := by
            rw [List.filter_eq_nil_iff]
            intro a ha
            have h2 : a ∈ s :: S' := by
              rw [← hcons]
              exact List.mem_filter.mpr ⟨ha, hall a ha⟩
            have h4 : (s :: S').contains a = true := List.elem_eq_true_of_mem h2
            simp only [h4, Bool.not_true, Bool.false_eq_true, not_false_eq_true]
          rw [hA, hempty]
          simp only [List.isEmpty_nil, if_true, List.eraseIdx_cons_zero]
          simp only [cleanStableOne, hc, hm, if_true]
          have h1 : (b.members.filter (memberPred u)).isEmpty = false := by
            rcases hq : b.members.filter (memberPred u) with _ | ⟨x, xs⟩
            · exact absurd hq hSe
            · rfl
          have h2 : b.members.filter (fun x => !(memberPred u x)) = [] := by
            rw [List.filter_eq_nil_iff]
            intro a ha
            simp [hall a ha]
          simp [h1, h2]
        · push_neg at hall
          obtain ⟨w, hwmem, hwp⟩ := hall
          have hwp2 : memberPred u w = false := by simpa using hwp
          have hwS : w ∉ b.members.filter (memberPred u) := by
            intro h
            have h2 := (List.mem_filter.mp h).2
            rw [hwp2] at h2
            exact absurd h2 (by simp)
          simp only [collectTempOne, hc, hm, if_true]
          rw [removeAllRev_head_members b.role c.title
            (b.members.filter (memberPred u)) b Y w hwmem hwS]
          have hBmem : b.members.filter
              (fun x => !((b.members.filter (memberPred u)).contains x)) =
              b.members.filter (fun x => !(memberPred u x)) := by
            apply List.filter_congr
            intro a ha
            by_cases hp : memberPred u a = true
            · have h3 : a ∈ b.members.filter (memberPred u) :=
                List.mem_filter.mpr ⟨ha, hp⟩
              have h4 : (b.members.filter (memberPred u)).contains a = true :=
                List.elem_eq_true_of_mem h3
              simp only [h4, hp, Bool.not_true]
            · have hp2 : memberPred u a = false := by simpa using hp
              have h3 : a ∉ b.members.filter (memberPred u) := by
                intro h
                have := (List.mem_filter.mp h).2
                rw [hp2] at this
                exact absurd this (by simp)
              have h4 : (b.members.filter (memberPred u)).contains a = false := by
                rcases hq : (b.members.filter (memberPred u)).contains a
                · rfl
                · exact absurd (List.mem_of_elem_eq_true hq) h3
              simp [h4, hp2]
          rw [hBmem]
          simp only [cleanStableOne, hc, hm, if_true]
          have h1 : (b.members.filter (memberPred u)).isEmpty = false := by
            rcases hq : b.members.filter (memberPred u) with _ | ⟨x, xs⟩
            · exact absurd hq hSe
            · rfl
          have h3 : (b.members.filter (fun x => !(memberPred u x))).isEmpty = false :=
            isEmpty_false_of_mem
              (List.mem_filter.mpr ⟨hwmem, by simp [hwp2]⟩)
          simp [h1, h3]
    · simp [collectTempOne, hc, hm, cleanStableOne, removeAllRev]

theorem removeAll_collect_eq_cleanStable (u : String) :
    ∀ bs : List Binding, (∀ b ∈ bs, b.members.Nodup) →
      removeAllRev bs (collectTemp bs u 0) = cleanStable bs u := by
  intro bs
  induction bs with
  | nil => intro _; rfl
  | cons b rest ih =>
    intro hnd
    have hb : b.members.Nodup := hnd b (by simp)
    have hrest : ∀ x ∈ rest, x.members.Nodup := fun x hx => hnd x (by simp [hx])
    simp only [collectTemp]
    rw [collectTemp_shift u rest 0, removeAllRev_append, removeAllRev_cons_shift,
      ih hrest, removeAllRev_head_matches b (cleanStable rest u) u hb]
    rfl

/-- C4 counterexample: with a duplicated member, the reverse-order
index-based removal deletes the marker binding mid-group, and the
remaining same-index match then rewrites the binding that sits after the
freed slot; the stable rebuild leaves that second binding untouched. -/
theorem clean_reverse_removal_counterexample :
    removeAllRev
        [⟨"roles/viewer", ["user:a", "user:a"], some ⟨"gta_temporary_access_1", "d", "e"⟩⟩,
         ⟨"roles/editor", ["user:a", "x:b"], none⟩]
        (collectTemp
          [⟨"roles/viewer", ["user:a", "user:a"], some ⟨"gta_temporary_access_1", "d", "e"⟩⟩,
           ⟨"roles/editor", ["user:a", "x:b"], none⟩] "" 0) ≠
      cleanStable
        [⟨"roles/viewer", ["user:a", "user:a"], some ⟨"gta_temporary_access_1", "d", "e"⟩⟩,
         ⟨"roles/editor", ["user:a", "x:b"], none⟩] "" := by
  decide

/-- C4 (amended): provided every binding's member list is duplicate-free
(the spec's data model makes members a set of principals), processing the
collected matches in reverse index order produces exactly the stable
rebuild that excludes matched members by identity, with surviving
bindings kept in their original relative order. -/
theorem clean_reverse_removal_eq_stable (bs : List Binding) (u : String)
    (hnd : ∀ b ∈ bs, b.members.Nodup) :
    removeAllRev bs (collectTemp bs u 0) = cleanStable bs u :=
  removeAll_collect_eq_cleanStable u bs hnd

theorem clean_reverse_removal_eq_stable_witness :
    (∀ b ∈ [(⟨"roles/viewer", ["user:a"], some ⟨"gta_temporary_access_1", "d", "e"⟩⟩ : Binding),
        ⟨"roles/editor", ["user:a", "x:b"], none⟩], b.members.Nodup) ∧
    removeAllRev
        [⟨"roles/viewer", ["user:a"], some ⟨"gta_temporary_access_1", "d", "e"⟩⟩,
         ⟨"roles/editor", ["user:a", "x:b"], none⟩]
        (collectTemp
          [⟨"roles/viewer", ["user:a"], some ⟨"gta_temporary_access_1", "d", "e"⟩⟩,
           ⟨"roles/editor", ["user:a", "x:b"], none⟩] "" 0) =
      cleanStable
        [⟨"roles/viewer", ["user:a"], some ⟨"gta_temporary_access_1", "d", "e"⟩⟩,
         ⟨"roles/editor", ["user:a", "x:b"], none⟩] "" :=
  ⟨by decide,
   clean_reverse_removal_eq_stable
     [⟨"roles/viewer", ["user:a"], some ⟨"gta_temporary_access_1", "d", "e"⟩⟩,
      ⟨"roles/editor", ["user:a", "x:b"], none⟩] "" (by decide)⟩

theorem collectTemp_append (u : String) :
    ∀ (xs ys : List Binding) (i : Nat),
      collectTemp (xs ++ ys) u i =
        collectTemp xs u i ++ collectTemp ys u (i + xs.length) := by
  intro xs
  induction xs with
  | nil => intro ys i; simp [collectTemp]
  | cons x xs ih =>
    intro ys i
    simp only [List.cons_append, collectTemp, List.append_eq, ih,
      List.append_assoc, List.length_cons]
    have h : i + 1 + xs.length = i + (xs.length + 1) := by omega
    rw [h]

theorem collectTemp_cleanStableOne (b : Binding) (u : String) :
    ∀ i, collectTemp (cleanStableOne b u) u i = [] := by
  intro i
  cases hc : b.condition with
  | none => simp [cleanStableOne, hc, collectTemp, collectTempOne]
  | some c =>
    by_cases hm : hasPrefixStr c.title gcpBindingTitlePrefix
    · by_cases h1 : (b.members.filter (memberPred u)).isEmpty
      · have hf : b.members.filter (memberPred u) = [] := List.isEmpty_iff.mp h1
        simp [cleanStableOne, hc, hm, h1, collectTemp, collectTempOne, hf]
      · by_cases h2 : (b.members.filter (fun m => !(memberPred u m))).isEmpty
        · simp [cleanStableOne, hc, hm, h1, h2, collectTemp]
        · have hff : (b.members.filter (fun m => !(memberPred u m))).filter
              (memberPred u) = [] := by
            rw [List.filter_filter]
            have hpt : ∀ a ∈ b.members,
                ((memberPred u a) && !(memberPred u a)) = false := by
              intro a _
              cases memberPred u a <;> rfl
            rw [List.filter_congr hpt, List.filter_false]
          simp [cleanStableOne, hc, hm, h1, h2, collectTemp, collectTempOne, hff]
    · simp [cleanStableOne, hc, hm, collectTemp, collectTempOne]

theorem collectTemp_cleanStable (u : String) :
    ∀ (bs : List Binding) (i : Nat),
      collectTemp (cleanStable bs u) u i = [] := by
  intro bs
  induction bs with
  | nil => intro i; rfl
  | cons b rest ih =>
    intro i
    simp only [cleanStable]
    rw [collectTemp_append, collectTemp_cleanStableOne, ih]
    rfl

/-- C5: with dry-run disabled and every remote call succeeding, a second
`Clean` with the same options and no interleaved change is a no-op: it
finds no matching temporary bindings, returns success, and performs no
policy write (write log, set-call count and remote policy unchanged). -/
theorem clean_twice_noop (env : Env) (opts : GCPOptions) (s : PState)
    (hget : ∀ n, env.getOk n = true) (hset : ∀ n, env.setOk n = true)
    (hnd : ∀ b ∈ s.remote.bindings, b.members.Nodup) :
    collectTemp (cleanTemporaryBindings env false opts s).2.remote.bindings
        opts.user 0 = [] ∧
    (cleanTemporaryBindings env false opts
        (cleanTemporaryBindings env false opts s).2).1 = Except.ok () ∧
    (cleanTemporaryBindings env false opts
        (cleanTemporaryBindings env false opts s).2).2.setLog =
      (cleanTemporaryBindings env false opts s).2.setLog ∧
    (cleanTemporaryBindings env false opts
        (cleanTemporaryBindings env false opts s).2).2.setCalls =
      (cleanTemporaryBindings env false opts s).2.setCalls ∧
    (cleanTemporaryBindings env false opts
        (cleanTemporaryBindings env false opts s).2).2.remote =
      (cleanTemporaryBindings env false opts s).2.remote := by
  have hkey : collectTemp
      (cleanTemporaryBindings env false opts s).2.remote.bindings opts.user 0 = [] := by
    simp only [cleanTemporaryBindings, getIAMPolicy, hget, if_true]
    by_cases he : (collectTemp s.remote.bindings opts.user 0).isEmpty
    · simp only [he, if_true]
      exact List.isEmpty_iff.mp he
    · simp only [he, Bool.false_eq_true, if_false, setIAMPolicy, hset, if_true]
      rw [removeAll_collect_eq_cleanStable opts.user s.remote.bindings hnd]
      exact collectTemp_cleanStable opts.user s.remote.bindings 0
  have h2 : ∀ s1 : PState, collectTemp s1.remote.bindings opts.user 0 = [] →
      cleanTemporaryBindings env false opts s1 =
        (Except.ok (), { s1 with getCalls := s1.getCalls + 1 }) := by
    intro s1 hcol
    simp only [cleanTemporaryBindings, getIAMPolicy, hget, if_true]
    simp [hcol]
  refine ⟨hkey, ?_, ?_, ?_, ?_⟩ <;> rw [h2 _ hkey]

theorem clean_twice_noop_witness :
    (∀ n : Nat, (⟨fun _ => true, fun _ => true, id, none⟩ : Env).getOk n = true) ∧
    (∀ b ∈ [(⟨"roles/viewer", ["user:a@b"],
        some ⟨"gta_temporary_access_1", "d", "e"⟩⟩ : Binding)], b.members.Nodup) ∧
    collectTemp (cleanTemporaryBindings ⟨fun _ => true, fun _ => true, id, none⟩ false
        ⟨"p", [], "", 0⟩ (newGCPProvider
          ⟨0, [⟨"roles/viewer", ["user:a@b"],
            some ⟨"gta_temporary_access_1", "d", "e"⟩⟩]⟩)).2.remote.bindings "" 0 = [] ∧
    (cleanTemporaryBindings ⟨fun _ => true, fun _ => true, id, none⟩ false
        ⟨"p", [], "", 0⟩
        (cleanTemporaryBindings ⟨fun _ => true, fun _ => true, id, none⟩ false
          ⟨"p", [], "", 0⟩ (newGCPProvider
            ⟨0, [⟨"roles/viewer", ["user:a@b"],
              some ⟨"gta_temporary_access_1", "d", "e"⟩⟩]⟩)).2).1 = Except.ok () :=
  ⟨fun _ => rfl, by decide,
   (clean_twice_noop ⟨fun _ => true, fun _ => true, id, none⟩ ⟨"p", [], "", 0⟩
      (newGCPProvider ⟨0, [⟨"roles/viewer", ["user:a@b"],
        some ⟨"gta_temporary_access_1", "d", "e"⟩⟩]⟩)
      (fun _ => rfl) (fun _ => rfl) (by decide)).1,
   ((clean_twice_noop ⟨fun _ => true, fun _ => true, id, none⟩ ⟨"p", [], "", 0⟩
      (newGCPProvider ⟨0, [⟨"roles/viewer", ["user:a@b"],
        some ⟨"gta_temporary_access_1", "d", "e"⟩⟩]⟩)
      (fun _ => rfl) (fun _ => rfl) (by decide)).2).1⟩

theorem listMatches_member_user (u : String) :
    ∀ bs : List Binding, ∀ e ∈ listMatches bs u,
      hasPrefixStr e.member "user:" = true := by
  intro bs
  induction bs with
  | nil => intro e he; exact absurd he (List.not_mem_nil e)
  | cons b rest ih =>
    intro e he
    rcases List.mem_append.mp he with h | h
    · cases hc : b.condition with
      | none => simp [listMatchesOne, hc] at h
      | some c =>
        by_cases hm : hasPrefixStr c.title gcpBindingTitlePrefix
        · simp only [listMatchesOne, hc, hm, if_true] at h
          obtain ⟨m, hm2, hfe⟩ := List.mem_map.mp h
          have hpred := (List.mem_filter.mp hm2).2
          rw [← hfe]
          simp only [memberPred, Bool.and_eq_true] at hpred
          exact hpred.1
        · simp [listMatchesOne, hc, hm] at h
    · exact ih e h

theorem mem_cleanStable_of_kept (u : String) (b : Binding)
    (hkept : cleanStableOne b u = [b]) :
    ∀ bs : List Binding, b ∈ bs → b ∈ cleanStable bs u := by
  intro bs
  induction bs with
  | nil => intro h; exact absurd h (List.not_mem_nil b)
  | cons b0 rest ih =>
    intro h
    rcases List.mem_cons.mp h with h | h
    · subst h
      simp only [cleanStable, hkept]
      exact List.mem_cons_self b (cleanStable rest u)
    · simp only [cleanStable]
      exact List.mem_append.mpr (Or.inr (ih h))

/-- C9: List and Clean only ever consider `user:`-prefixed members: every
reported line is for a `user:` member, and a marker-titled binding all of
whose members are non-user principals is never removed by Clean — it
survives the removal pass unchanged, even with an empty member filter. -/
theorem nonuser_members_never_touched (bs : List Binding) (u : String)
    (b : Binding) (c : Expr) (hb : b ∈ bs) (hc : b.condition = some c)
    (hmk : hasPrefixStr c.title gcpBindingTitlePrefix = true)
    (hnu : ∀ m ∈ b.members, hasPrefixStr m "user:" = false)
    (hnd : ∀ x ∈ bs, x.members.Nodup) :
    (∀ e ∈ listMatches bs u, hasPrefixStr e.member "user:" = true) ∧
    b ∈ removeAllRev bs (collectTemp bs u 0) := by
  refine ⟨fun e he => listMatches_member_user u bs e he, ?_⟩
  rw [removeAll_collect_eq_cleanStable u bs hnd]
  have hkept : cleanStableOne b u = [b] := by
    have hf : b.members.filter (memberPred u) = [] := by
      rw [List.filter_eq_nil_iff]
      intro a ha
      simp [memberPred, hnu a ha]
    simp [cleanStableOne, hc, hmk, hf]
  exact mem_cleanStable_of_kept u b hkept bs hb

theorem nonuser_members_never_touched_witness :
    ((⟨"roles/x", ["serviceAccount:sa@x"],
        some ⟨"gta_temporary_access_9", "d", "e"⟩⟩ : Binding) ∈
      [(⟨"roles/x", ["serviceAccount:sa@x"],
        some ⟨"gta_temporary_access_9", "d", "e"⟩⟩ : Binding)] ∧
     hasPrefixStr "gta_temporary_access_9" gcpBindingTitlePrefix = true ∧
     (∀ m ∈ ["serviceAccount:sa@x"], hasPrefixStr m "user:" = false)) ∧
    ((∀ e ∈ listMatches [(⟨"roles/x", ["serviceAccount:sa@x"],
        some ⟨"gta_temporary_access_9", "d", "e"⟩⟩ : Binding)] "",
       hasPrefixStr e.member "user:" = true) ∧
     (⟨"roles/x", ["serviceAccount:sa@x"],
        some ⟨"gta_temporary_access_9", "d", "e"⟩⟩ : Binding) ∈
       removeAllRev [(⟨"roles/x", ["serviceAccount:sa@x"],
          some ⟨"gta_temporary_access_9", "d", "e"⟩⟩ : Binding)]
         (collectTemp [(⟨"roles/x", ["serviceAccount:sa@x"],
            some ⟨"gta_temporary_access_9", "d", "e"⟩⟩ : Binding)] "" 0)) :=
  ⟨⟨by decide, by decide, by decide⟩,
   nonuser_members_never_touched
     [(⟨"roles/x", ["serviceAccount:sa@x"],
        some ⟨"gta_temporary_access_9", "d", "e"⟩⟩ : Binding)] ""
     ⟨"roles/x", ["serviceAccount:sa@x"], some ⟨"gta_temporary_access_9", "d", "e"⟩⟩
     ⟨"gta_temporary_access_9", "d", "e"⟩
     (by decide) rfl (by decide) (by decide) (by decide)⟩

end GTA
